import Mathlib

/-!
Verification of the bucket-namespacing, record-mapping and snapshot-iteration
subsystem of the bow embedded database (Go sources: db.go, the bucket and
iterator files, codec/key/key.go, and the struct-type mapper file).

Byte strings are modelled as `List Nat` (each element one byte, values taken
mod 256 by the encoders). The underlying ordered key-value engine (badger) is
external to the repository; it is modelled from the spec (section 6) as an
ordered association list of keys to values, with a read snapshot being the
list value captured at transaction creation.
-/

namespace Bow

/-- Big-endian fixed-width byte encoding of a natural number:
`beBytes w n` is the `w`-byte big-endian form of `n` (mod `256 ^ w`).
Embeds `binary.BigEndian.PutUintNN`. -/
def beBytes : Nat → Nat → List Nat
  | 0, _ => []
  | w + 1, n => (n / 256 ^ w) % 256 :: beBytes w n

/-- Big-endian byte decoding, `binary.BigEndian.UintNN`. -/
def fromBE (l : List Nat) : Nat := l.foldl (fun a b => a * 256 + b) 0

/-- Strict lexicographic byte-string order, the key order of the underlying
engine (shorter strings sort before their extensions). -/
def lexLt : List Nat → List Nat → Bool
  | _, [] => false
  | [], _ :: _ => true
  | a :: as, b :: bs => if a < b then true else if b < a then false else lexLt as bs

/-- `hasPfx p k` is `bytes.HasPrefix(k, p)`: `p` is a prefix of `k`. -/
def hasPfx : List Nat → List Nat → Bool
  | [], _ => true
  | _ :: _, [] => false
  | p :: ps, k :: ks => if p = k then hasPfx ps ks else false

/-! ## Error taxonomy (db.go, bucket file, codec/key/key.go) -/

/-- Errors surfaced by the layer: `ErrNotFound`, `ErrReadOnly` (db.go 22-25),
the capacity error of `createBucket` (db.go 307-310), an engine write/commit
failure, a value-codec decode failure, and a key-codec failure. -/
inductive Err
  | notFound
  | readOnly
  | capacity
  | engineWrite
  | codecFail
  | keyCodecFail
deriving DecidableEq, Repr

/-! ## Key codec (codec/key/key.go)

`Codec.Marshal` builds integer encodings with
`b := bytes.NewBuffer(make([]byte, 8))` (key.go line 27): the buffer's
INITIAL CONTENTS are eight zero bytes and `binary.Write` appends after them,
so the returned encoding is 8 zero bytes followed by the big-endian value.
`Codec.Unmarshal` (key.go 60-87) reads the fixed width from the FRONT of the
data with `binary.Read`, and returns immediately with no write when the data
is empty (key.go 61-63). -/

/-- Encoding of a `uint16` key by `Codec.Marshal` (key.go 24-31): the
eight-zero-byte buffer prefix followed by the 2-byte big-endian value. -/
def keyMarshalU16 (n : Nat) : List Nat :=
  List.replicate 8 0 ++ beBytes 2 n

/-- Decoding into a `*uint16` destination by `Codec.Unmarshal` (key.go 53-58):
empty data is a no-op leaving the destination `cur` unchanged (key.go 61-63);
otherwise `binary.Read` consumes the first two bytes, failing (`none`) when
fewer are available. -/
def keyUnmarshalU16 (data : List Nat) (cur : Nat) : Option Nat :=
  if data.isEmpty then some cur
  else if 2 ≤ data.length then some (fromBE (data.take 2))
  else none

/-- Modelled from the spec: the encoding section 4.3 describes for fixed-width
integers — exactly the big-endian, fixed-width-per-element bytes, with no
prefix. Stated only to compare against `keyMarshalU16`. -/
def specKeyMarshalU16 (n : Nat) : List Nat := beBytes 2 n

/-- Encoding of an `int64`/`int` key by `Codec.Marshal` (key.go 24-33):
8 zero bytes followed by the 8-byte big-endian two's-complement value. -/
def keyMarshalI64 (n : Int) : List Nat :=
  List.replicate 8 0 ++ beBytes 8 (n % (2 ^ 64)).toNat

/-- Two's-complement decoding of 8 big-endian bytes (`binary.Read` into an
`*int64`). -/
def decI64 (bs : List Nat) : Int :=
  let m := fromBE bs
  if m < 2 ^ 63 then (m : Int) else (m : Int) - 2 ^ 64

/-! ## Records and the record mapper (struct-type mapper file)

Records are modelled as a structure with one designated key field (the
`bow:"key"`-bound field found by `structType.keyIndex`) and one payload
field. The key field is either a Go `string` (marshalled verbatim by the key
codec, key.go 20-21) or a Go `int64` (marshalled through the zero-padded
buffer path). -/

/-- The designated key field's value. -/
inductive KeyField
  | kstr (s : List Nat)
  | ki64 (n : Int)
deriving DecidableEq, Repr

/-- A record: key field plus payload. -/
structure Rec where
  key : KeyField
  payload : Int
deriving DecidableEq, Repr

/-- `keyCodec.Marshal` applied to a key value (key.go 14-58): strings are
encoded verbatim; integers get the 8-zero-byte buffer prefix plus the 8-byte
big-endian value. -/
def keyMarshal : KeyField → List Nat
  | .kstr s => s
  | .ki64 n => keyMarshalI64 n

/-- `structValue.key` (mapper file): extracts the key field and marshals it
with the key codec. -/
def extractKey (r : Rec) : List Nat := keyMarshal r.key

/-- `structValue.setKey` (mapper file): `keyCodec.Unmarshal(data, &field)`.
Empty data is a no-op (key.go 61-63). A `*string` destination receives the
bytes verbatim (key.go 74-75); an `*int64` destination receives the first 8
bytes decoded big-endian, and `binary.Read` errors when fewer than 8 bytes
are available (key.go 78-82). -/
def setKeyE (r : Rec) (data : List Nat) : Except Err Rec :=
  if data.isEmpty then .ok r
  else match r.key with
    | .kstr _ => .ok { r with key := .kstr data }
    | .ki64 _ =>
      if 8 ≤ data.length then .ok { r with key := .ki64 (decI64 (data.take 8)) }
      else .error .keyCodecFail

/-- `setKey` as called by `Bucket.Get` (bucket file line 77), which discards
the returned error: on failure the record is left unchanged. -/
def setKey (r : Rec) (data : List Nat) : Rec :=
  match setKeyE r data with
  | .ok r2 => r2
  | .error _ => r

/-! ## The engine store and metadata (db.go)

The badger engine is external; per spec section 6 it is an ordered
transactional byte-string keyed store. A value is either the value-codec
serialization of a record or the JSON serialization of the metadata
document; both serializations are injective, so they are modelled by
constructors. -/

/-- Per-bucket metadata (db.go 356-358): the bucket id, a 2-byte value kept
here as a `Nat` below `2 ^ 16`. -/
structure BucketMeta where
  id : Nat
deriving DecidableEq, Repr

/-- The metadata document (db.go 360-363). The bucket-name map is an
association list keyed by name. -/
structure Meta where
  version : Nat
  buckets : List (String × BucketMeta)
deriving DecidableEq, Repr

/-- A stored engine value: a record serialized by the configured value codec,
or the serialized metadata document. -/
inductive Val
  | recV (r : Rec)
  | metaV (m : Meta)
deriving DecidableEq, Repr

/-- The engine's key space: an association list from byte-string keys to
values, kept in ascending `lexLt` key order by insertion. -/
abbrev Store := List (List Nat × Val)

/-- Transactional `txn.Get`. -/
def storeGet : Store → List Nat → Option Val
  | [], _ => none
  | (k2, v) :: rest, k => if k = k2 then some v else storeGet rest k

/-- Transactional `txn.Set`: order-preserving insert, replacing an existing
binding of the same key. -/
def storeSet : Store → List Nat → Val → Store
  | [], k, v => [(k, v)]
  | (k2, v2) :: rest, k, v =>
    if lexLt k k2 = true then (k, v) :: (k2, v2) :: rest
    else if k = k2 then (k, v) :: rest
    else (k2, v2) :: storeSet rest k v

/-- Transactional `txn.Delete` (idempotent). -/
def storeDel : Store → List Nat → Store
  | [], _ => []
  | (k2, v2) :: rest, k => if k = k2 then rest else (k2, v2) :: storeDel rest k

/-! ## Database constants (db.go 27-46) -/

/-- The format version constant (db.go: `const version = 1`). -/
def formatVersion : Nat := 1

/-- `bucketIdSize` (db.go 32): bucket ids are 2 bytes. -/
def bucketIdSize : Nat := 2

/-- `MaxBuckets = math.MaxUint16 - 8*256` (db.go 35). -/
def MaxBuckets : Nat := 65535 - 8 * 256

/-- `metaKey = []byte{0x00, 0x01}` (db.go 45): reserved key holding the
serialized metadata document. -/
def metaKey : List Nat := [0, 1]

/-- An opened database (db.go `DB` struct): the engine contents, the
in-memory metadata document, the bucket-id sequence counter (the durable
badger sequence, whose next value this field holds), and the read-only
flag. -/
structure DB where
  store : Store
  meta : Meta
  nextBucketSeq : Nat
  readOnly : Bool
deriving DecidableEq, Repr

/-- `Bucket.internalKey` (bucket file 166-171): the user key prefixed with
the bucket's 2-byte id (`binary.BigEndian.PutUint16`). -/
def internalKey (id : Nat) (key : List Nat) : List Nat :=
  beBytes 2 id ++ key

/-- Lookup of a bucket name in the metadata map (`db.meta.Buckets[name]`). -/
def lookupName : List (String × BucketMeta) → String → Option Nat
  | [], _ => none
  | (n, bm) :: rest, name => if name = n then some bm.id else lookupName rest name

/-- `DB.writeMeta` (db.go 341-354): serialize the in-memory metadata document
and set it under `metaKey` in a transaction. -/
def writeMeta (db : DB) : DB :=
  { db with store := storeSet db.store metaKey (.metaV db.meta) }

/-- `DB.createBucket` (db.go 289-323). Under the metadata write lock:
re-check the map; on a miss draw the next id from the sequence, add the
reserved-range offset `8*256`, reject with a capacity error past
`MaxBuckets`, register the name in the in-memory map, then persist the
metadata document. `writeOk` models whether that transactional persist
commits; on failure the source returns the error WITHOUT undoing the
in-memory registration (db.go 314-320). -/
def createBucket (db : DB) (name : String) (writeOk : Bool) :
    DB × Except Err Nat :=
  match lookupName db.meta.buckets name with
  | some id => (db, .ok id)
  | none =>
    let nextId := db.nextBucketSeq + 8 * 256
    let db1 := { db with nextBucketSeq := db.nextBucketSeq + 1 }
    if MaxBuckets < nextId then (db1, .error .capacity)
    else
      let db2 := { db1 with
        meta := { db1.meta with buckets := (name, ⟨nextId⟩) :: db1.meta.buckets } }
      if writeOk then (writeMeta db2, .ok nextId)
      else (db2, .error .engineWrite)

/-- `DB.Bucket` (db.go 231-244): resolve under the read lock; on a miss in
read-only mode latch `ErrNotFound`; otherwise create. The second component
is the returned bucket: its id, or its latched error. -/
def dbBucket (db : DB) (name : String) (writeOk : Bool) :
    DB × Except Err Nat :=
  match lookupName db.meta.buckets name with
  | some id => (db, .ok id)
  | none =>
    if db.readOnly then (db, .error .notFound)
    else createBucket db name writeOk

/-- `Open` (db.go 168-226), after the engine itself opened successfully on
contents `st`: `readMeta` loads the document under `metaKey`; when the key is
absent a fresh document with the current format version is created and, if
not read-only, persisted (commit success modelled by `writeOk`). NOTE: the
source never compares the loaded document's `Version` with the `version`
constant. -/
def openDB (st : Store) (readOnly : Bool) (writeOk : Bool) : Except Err DB :=
  match storeGet st metaKey with
  | none =>
    let m : Meta := { version := formatVersion, buckets := [] }
    if readOnly then
      .ok { store := st, meta := m, nextBucketSeq := 0, readOnly := true }
    else if writeOk then
      .ok { store := storeSet st metaKey (.metaV m), meta := m,
            nextBucketSeq := 0, readOnly := false }
    else .error .engineWrite
  | some (.metaV m) =>
    .ok { store := st, meta := m, nextBucketSeq := 0, readOnly := readOnly }
  | some (.recV _) => .error .codecFail

/-! ## Bucket operations (bucket file)

A bucket handle is its id together with its latched creation error,
`Except Err Nat` as produced by `dbBucket`. The configured value codec is
modelled per the spec's collaborator contract (section 6): serialization is
the injective `Val.recV` embedding. -/

/-- `Bucket.PutBytes` (bucket file 40-60): reject in read-only mode, return a
latched bucket error, otherwise marshal the key (a `[]byte` key is returned
verbatim by the key codec), substitute a freshly generated id (`NewId()`,
modelled by the `fresh` argument) for an empty key, and set the internal key
transactionally. -/
def bPutBytes (db : DB) (b : Except Err Nat) (keyBytes : List Nat)
    (data : Val) (fresh : List Nat) : DB × Option Err :=
  if db.readOnly then (db, some .readOnly)
  else match b with
    | .error e => (db, some e)
    | .ok id =>
      let ik := if keyBytes.isEmpty then internalKey id fresh
                else internalKey id keyBytes
      ({ db with store := storeSet db.store ik data }, none)

/-- `Bucket.Put` (bucket file 18-38): reject in read-only mode, return a
latched bucket error, extract the record's key via the mapper, serialize the
record with the configured value codec, and delegate to `PutBytes`. -/
def bPut (db : DB) (b : Except Err Nat) (r : Rec) (fresh : List Nat) :
    DB × Option Err :=
  if db.readOnly then (db, some .readOnly)
  else match b with
    | .error e => (db, some e)
    | .ok _ => bPutBytes db b (extractKey r) (.recV r) fresh

/-- `Bucket.Get` (bucket file 64-90): return a latched bucket error; marshal
the supplied key; inject it into the destination record BEFORE the engine
read (line 77, the `setKey` error being discarded); then read the internal
key in a view transaction: a missing key yields `ErrNotFound`, a hit decodes
the stored value into the destination with the configured value codec.
The result is the final state of the destination record plus the error. -/
def bGet (db : DB) (b : Except Err Nat) (key : KeyField) (out : Rec) :
    Rec × Option Err :=
  match b with
  | .error e => (out, some e)
  | .ok id =>
    let keyBytes := keyMarshal key
    let ik := internalKey id keyBytes
    let out1 := setKey out keyBytes
    match storeGet db.store ik with
    | none => (out1, some .notFound)
    | some (.recV r) => (r, none)
    | some (.metaV _) => (out1, some .codecFail)

/-- `Bucket.Delete` (bucket file 126-141): reject in read-only mode, return a
latched bucket error, otherwise delete the internal key unconditionally. -/
def bDelete (db : DB) (b : Except Err Nat) (key : KeyField) : DB × Option Err :=
  if db.readOnly then (db, some .readOnly)
  else match b with
    | .error e => (db, some e)
    | .ok id =>
      ({ db with store := storeDel db.store (internalKey id (keyMarshal key)) },
       none)

/-! ## Iterator (iterator file)

`newIter` opens a read transaction (a snapshot of the engine contents at
creation time, per the spec's engine contract) and a cursor seeked to the
bucket prefix. The cursor is modelled by the suffix of the snapshot starting
at the seek position (`rest`); `it.Next()` drops its head. `resOpen` tracks
whether the iterator's badger iterator and transaction are still held. -/

/-- Iterator state (iterator file 9-18). -/
structure IterSt where
  rest : Store
  pre : List Nat
  advanced : Bool
  closed : Bool
  err : Option Err
  resOpen : Bool
deriving DecidableEq, Repr

/-- A scratch record for `Next` destinations. -/
def dummyRec : Rec := { key := .kstr [], payload := 0 }

/-- `newIter` (iterator file 20-33): prefix the caller's sub-prefix with the
bucket id, take a read snapshot, and seek the cursor to the first key not
below the prefix. -/
def newIterSt (snapshot : Store) (id : Nat) (sub : List Nat) : IterSt :=
  let pre := internalKey id sub
  { rest := snapshot.dropWhile (fun e => lexLt e.1 pre)
    pre := pre
    advanced := false
    closed := false
    err := none
    resOpen := true }

/-- `Iter.Close` (iterator file 89-96): when an error is latched it returns
immediately WITHOUT closing the badger iterator or discarding the
transaction; otherwise it marks the iterator closed and releases both. -/
def iterClose (it : IterSt) : IterSt :=
  if it.err.isSome then it
  else { it with closed := true, resOpen := false }

/-- Decoding one engine entry into a destination record inside `Iter.Next`
(iterator file 51-68): `codec.Unmarshal` of the stored value (failing on a
non-record value), then `setKey` of the internal key with the 2-byte bucket
prefix stripped. -/
def decodeEntry (e : List Nat × Val) : Except Err Rec :=
  match e.2 with
  | .recV r => setKeyE r (e.1.drop bucketIdSize)
  | .metaV _ => .error .codecFail

/-- The record a well-formed entry stores (used to state what iteration
yields). -/
def recOfEntry (e : List Nat × Val) : Rec :=
  match e.2 with
  | .recV r => r
  | .metaV _ => dummyRec

/-- Whether `Iter.Next` can decode an entry without latching an error: the
value decodes as a record and the key re-injection does not fail. (For a
record with an integer key field the re-injection fails only when the
stripped key is non-empty and shorter than 8 bytes.) -/
def entryDec (e : List Nat × Val) : Bool :=
  match decodeEntry e with
  | .ok _ => true
  | .error _ => false

/-- The record `Iter.Next` actually yields for an entry: the stored record
decoded by the value codec with the stripped internal key re-injected into
its key field by the key codec. For a string-keyed record this equals the
stored record; for an `int64`-keyed record the re-injected key is the
decode of the zero-padded encoding. -/
def yieldOf (e : List Nat × Val) : Rec :=
  match decodeEntry e with
  | .ok r => r
  | .error _ => dummyRec

/-- `it.ValidForPrefix(prefix)` on the cursor position `l`. -/
def validB (pre : List Nat) (l : Store) : Bool :=
  match l with
  | [] => false
  | e :: _ => hasPfx pre e.1

/-- The cursor position `Next` evaluates: the current entry on the first
advance, the following entry afterwards (iterator file 42-44). -/
def curRest (it : IterSt) : Store :=
  if it.advanced then it.rest.tail else it.rest

/-- `Iter.Next` (iterator file 35-78). Returns the new state, whether a
record was produced, and the destination record's final contents. -/
def iterNext (it : IterSt) (scratch : Rec) : IterSt × Bool × Rec :=
  if it.err.isSome then (it, false, scratch)
  else if it.closed then (it, false, scratch)
  else
    let rest := curRest it
    let it1 := { it with rest := rest }
    match rest with
    | [] => (iterClose it1, false, scratch)
    | e :: _ =>
      if hasPfx it.pre e.1 then
        match decodeEntry e with
        | .ok r => ({ it1 with advanced := true }, true, r)
        | .error err2 => ({ it1 with err := some err2 }, false, scratch)
      else (iterClose it1, false, scratch)

/-- Driving loop: repeated `Next` calls collecting every produced record, in
order, with enough fuel to exhaust the cursor. -/
def iterLoop : Nat → IterSt → List Rec → List Rec × IterSt
  | 0, it, acc => (acc.reverse, it)
  | n + 1, it, acc =>
    match iterNext it dummyRec with
    | (it2, true, r) => iterLoop n it2 (r :: acc)
    | (it2, false, _) => (acc.reverse, it2)

/-- Everything an iterator yields over its lifetime. -/
def iterYields (it : IterSt) : List Rec :=
  (iterLoop (it.rest.length + 1) it []).1

/-- The entries of the snapshot under the active prefix, in stored order. -/
def prefixEntries (s : Store) (pre : List Nat) : Store :=
  s.filter (fun e => hasPfx pre e.1)

/-- A committed mutation on the database: `Bucket.Put` or `Bucket.Delete`. -/
inductive Op
  | put (id : Nat) (r : Rec) (fresh : List Nat)
  | del (id : Nat) (k : KeyField)
deriving Repr

/-- Apply one committed mutation. -/
def applyOp (db : DB) : Op → DB
  | .put id r fresh => (bPut db (.ok id) r fresh).1
  | .del id k => (bDelete db (.ok id) k).1

/-- Apply a sequence of committed mutations. -/
def applyOps (db : DB) (ops : List Op) : DB := ops.foldl applyOp db

/-- The scenario of spec section 4.5: create an iterator on a bucket, then
commit further mutations to the database; return what the iterator yields
and the database state after the mutations. -/
def iterThenMutate (db : DB) (id : Nat) (sub : List Nat) (ops : List Op) :
    List Rec × DB :=
  let it := newIterSt db.store id sub
  let db2 := applyOps db ops
  (iterYields it, db2)

/-- Adjacent-pair sortedness of a store's keys in `lexLt`. -/
def sortedKeys : Store → Bool
  | [] => true
  | [_] => true
  | e1 :: e2 :: rest => lexLt e1.1 e2.1 && sortedKeys (e2 :: rest)

/-! ## Lemmas: lexicographic order and prefixes -/

theorem lexLt_irrefl (a : List Nat) : lexLt a a = false := by
  induction a with
  | nil => rfl
  | cons x xs ih => simp [lexLt, ih]

theorem lexLt_trans {a b c : List Nat} (h1 : lexLt a b = true)
    (h2 : lexLt b c = true) : lexLt a c = true := by
  induction a generalizing b c with
  | nil =>
    cases b with
    | nil => simp [lexLt] at h1
    | cons y ys =>
      cases c with
      | nil => simp [lexLt] at h2
      | cons z zs => rfl
  | cons x xs ih =>
    cases b with
    | nil => simp [lexLt] at h1
    | cons y ys =>
      cases c with
      | nil => simp [lexLt] at h2
      | cons z zs =>
        rcases Nat.lt_trichotomy x y with hxy | hxy | hxy
        · rcases Nat.lt_trichotomy y z with hyz | hyz | hyz
          · simp [lexLt, show x < z by omega]
          · subst hyz; simp [lexLt, hxy]
          · simp [lexLt, show ¬ y < z by omega, hyz] at h2
        · subst hxy
          simp only [lexLt, Nat.lt_irrefl, if_false] at h1
          rcases Nat.lt_trichotomy x z with hxz | hxz | hxz
          · simp [lexLt, hxz]
          · subst hxz
            simp only [lexLt, Nat.lt_irrefl, if_false] at h2 ⊢
            exact ih h1 h2
          · simp [lexLt, show ¬ x < z by omega, hxz] at h2
        · simp [lexLt, show ¬ x < y by omega, hxy] at h1

theorem lexLt_of_not_lexLt {a b : List Nat} (h : lexLt a b = false)
    (hne : a ≠ b) : lexLt b a = true := by
  induction a generalizing b with
  | nil =>
    cases b with
    | nil => exact absurd rfl hne
    | cons y ys => simp [lexLt] at h
  | cons x xs ih =>
    cases b with
    | nil => rfl
    | cons y ys =>
      rcases Nat.lt_trichotomy x y with hxy | hxy | hxy
      · simp [lexLt, hxy] at h
      · subst hxy
        simp only [lexLt, Nat.lt_irrefl, if_false] at h ⊢
        refine ih h ?_
        intro hc
        exact hne (by rw [hc])
      · simp [lexLt, hxy]

theorem hasPfx_lexLt_false {p k : List Nat} (h : hasPfx p k = true) :
    lexLt k p = false := by
  induction p generalizing k with
  | nil => cases k <;> rfl
  | cons x xs ih =>
    cases k with
    | nil => simp [hasPfx] at h
    | cons a as =>
      by_cases hax : x = a
      · subst hax
        simp only [hasPfx, if_pos rfl] at h
        simp [lexLt, ih h]
      · simp [hasPfx, hax] at h

/-- Prefix sandwich: if `pre` is a prefix of an upper bound `k2`, then every
`k` between `pre` and `k2` in lexicographic order also has prefix `pre`. -/
theorem hasPfx_of_between {pre k k2 : List Nat} (hp : hasPfx pre k2 = true)
    (hge : lexLt k pre = false) (hlt : lexLt k k2 = true) :
    hasPfx pre k = true := by
  induction pre generalizing k k2 with
  | nil => rfl
  | cons p ps ih =>
    cases k2 with
    | nil => simp [hasPfx] at hp
    | cons b bs =>
      cases k with
      | nil => simp [lexLt] at hge
      | cons a as =>
        by_cases hpb : p = b
        · subst hpb
          simp only [hasPfx, if_pos rfl] at hp
          rcases Nat.lt_trichotomy a p with hap | hap | hap
          · simp [lexLt, hap] at hge
          · subst hap
            simp only [lexLt, Nat.lt_irrefl, if_false] at hge hlt
            simp only [hasPfx, if_pos rfl]
            exact ih hp hge hlt
          · simp [lexLt, show ¬ a < p by omega, hap] at hlt
        · simp [hasPfx, hpb] at hp

/-! ## Lemmas: the engine store -/

theorem storeGet_set_self (s : Store) (k : List Nat) (v : Val) :
    storeGet (storeSet s k v) k = some v := by
  induction s with
  | nil => simp [storeSet, storeGet]
  | cons e rest ih =>
    obtain ⟨k2, v2⟩ := e
    by_cases hlt : lexLt k k2 = true
    · simp [storeSet, hlt, storeGet]
    · by_cases heq : k = k2
      · subst heq; simp [storeSet, hlt, storeGet]
      · simp [storeSet, hlt, heq, storeGet, ih]

theorem storeGet_set_ne (s : Store) (k k3 : List Nat) (v : Val)
    (h : k3 ≠ k) : storeGet (storeSet s k v) k3 = storeGet s k3 := by
  induction s with
  | nil => simp [storeSet, storeGet, h]
  | cons e rest ih =>
    obtain ⟨k2, v2⟩ := e
    by_cases hlt : lexLt k k2 = true
    · simp [storeSet, hlt, storeGet, h]
    · by_cases heq : k = k2
      · subst heq; simp [storeSet, hlt, storeGet, h]
      · simp only [storeSet, hlt, if_false, heq, if_neg heq]
        by_cases h3 : k3 = k2
        · simp [storeGet, h3]
        · simp [storeGet, h3, ih]

/-! ## Record-mapper key-field discovery (structType.keyIndex) -/

/-- The `bow` struct tag value that marks the key field. -/
def bowKeyTag : String := "key"

/-- A struct field as seen by `keyIndex`: whether its type is the built-in
`Id` type, and its `bow` struct tag, if any. -/
structure GoField where
  isIdType : Bool
  bowTag : Option String
deriving DecidableEq, Repr

/-- The field loop of `structType.keyIndex` (mapper file 355-371): walk the
fields in order; a field of type `Id` sets the index and exits the loop
(`break` inside the `for`); a field tagged `bow:"key"` sets the index, but
the `break` sits inside the `switch` statement and only exits the switch, so
the loop keeps scanning. -/
def keyIndexGoAux : List GoField → Nat → Option Nat → Option Nat
  | [], _, acc => acc
  | f :: rest, i, acc =>
    if f.isIdType then some i
    else match f.bowTag with
      | none => keyIndexGoAux rest (i + 1) acc
      | some flag =>
        if flag = bowKeyTag then keyIndexGoAux rest (i + 1) (some i)
        else keyIndexGoAux rest (i + 1) acc

/-- `structType.keyIndex` on a list of fields (`none` = no key field,
the source's `-1`). -/
def keyIndexGo (fields : List GoField) : Option Nat :=
  keyIndexGoAux fields 0 none

/-- First field tagged `bow:"key"`, by index. -/
def findTaggedIdx : List GoField → Nat → Option Nat
  | [], _ => none
  | f :: rest, i =>
    match f.bowTag with
    | some flag => if flag = bowKeyTag then some i else findTaggedIdx rest (i + 1)
    | none => findTaggedIdx rest (i + 1)

/-- First field of type `Id`, by index. -/
def findIdIdx : List GoField → Nat → Option Nat
  | [], _ => none
  | f :: rest, i => if f.isIdType then some i else findIdIdx rest (i + 1)

/-- Modelled from the spec (section 4.2): prefer a field explicitly annotated
as the key; only otherwise fall back to a field typed as the built-in
unique-identifier type. Stated only to compare against `keyIndexGo`. -/
def keyIndexSpec (fields : List GoField) : Option Nat :=
  match findTaggedIdx fields 0 with
  | some i => some i
  | none => findIdIdx fields 0

/-! ## Concrete fixtures for witnesses and counterexamples -/

/-- A bucket name. -/
def nameA : String := "alpha"

/-- Another bucket name. -/
def nameB : String := "beta"

/-- An empty metadata document at the current format version. -/
def meta0 : Meta := { version := formatVersion, buckets := [] }

/-- A freshly bootstrapped writable database. -/
def dbW : DB :=
  { store := (metaKey, Val.metaV meta0) :: []
    meta := meta0
    nextBucketSeq := 0
    readOnly := false }

/-- A string-keyed record. -/
def recA : Rec := { key := .kstr (49 :: []), payload := 7 }

/-- Another record under the same user key. -/
def recB : Rec := { key := .kstr (49 :: []), payload := 9 }

/-- A scratch output record. -/
def outW : Rec := { key := .kstr [], payload := 0 }

/-- A read-only database holding `recA` in bucket 2048 under the name
`nameA`. -/
def dbRO : DB :=
  { store := (internalKey 2048 (49 :: []), Val.recV recA) :: []
    meta := { version := formatVersion, buckets := (nameA, ⟨2048⟩) :: [] }
    nextBucketSeq := 0
    readOnly := true }

/-- A store whose single entry under bucket 2048 holds a value the value
codec cannot decode as a record. -/
def badStore : Store :=
  (internalKey 2048 (9 :: []), Val.metaV meta0) :: []

/-- An iterator over `badStore`, about to hit the undecodable value. -/
def itC9 : IterSt := newIterSt badStore 2048 []

/-- A writable database whose bucket 2048 holds an `int64`-keyed record
(whose 18-byte internal key sorts first) and a string-keyed record. -/
def dbW7 : DB :=
  { store :=
      (internalKey 2048 (keyMarshalI64 7), Val.recV { key := .ki64 7, payload := 2 })
        :: (internalKey 2048 (49 :: []), Val.recV { key := .kstr (49 :: []), payload := 1 })
        :: []
    meta := { version := formatVersion, buckets := (nameA, ⟨2048⟩) :: [] }
    nextBucketSeq := 0
    readOnly := false }

/-- A writable database whose bucket 2048 holds one `int64`-keyed record. -/
def dbInt : DB :=
  { store :=
      (internalKey 2048 (keyMarshalI64 7), Val.recV { key := .ki64 7, payload := 1 }) :: []
    meta := { version := formatVersion, buckets := (nameA, ⟨2048⟩) :: [] }
    nextBucketSeq := 0
    readOnly := false }

/-- Mutations committed after iterator creation: a `Put` of a new record
sorting after the cursor, and a `Delete` of an existing record. -/
def opsW : List Op :=
  (Op.put 2048 { key := .kstr (51 :: []), payload := 3 } [])
    :: (Op.del 2048 (.kstr (50 :: []))) :: []

/-! ## Lemmas: sortedness, seeking, and the iteration loop -/

theorem decodeEntry_of_dec {e : List Nat × Val} (h : entryDec e = true) :
    decodeEntry e = .ok (yieldOf e) := by
  unfold entryDec at h
  unfold yieldOf
  cases hd : decodeEntry e with
  | ok r => rfl
  | error err2 => rw [hd] at h; exact absurd h (by simp)

theorem sortedKeys_tail {e : List Nat × Val} {l : Store}
    (h : sortedKeys (e :: l) = true) : sortedKeys l = true := by
  cases l with
  | nil => rfl
  | cons e2 l2 =>
    simp only [sortedKeys, Bool.and_eq_true] at h
    exact h.2

theorem sortedKeys_head_lt {e : List Nat × Val} {l : Store}
    (h : sortedKeys (e :: l) = true) :
    ∀ e2 ∈ l, lexLt e.1 e2.1 = true := by
  induction l generalizing e with
  | nil => intro e2 h2; simp at h2
  | cons e3 l3 ih =>
    intro e2 h2
    simp only [sortedKeys, Bool.and_eq_true] at h
    rcases List.mem_cons.mp h2 with rfl | h2
    · exact h.1
    · exact lexLt_trans h.1 (ih h.2 e2 h2)

theorem sortedKeys_dropWhile (p : List Nat × Val → Bool) :
    ∀ l : Store, sortedKeys l = true →
      sortedKeys (l.dropWhile p) = true := by
  intro l
  induction l with
  | nil => intro h; exact h
  | cons e l2 ih =>
    intro h
    rw [List.dropWhile_cons]
    cases hp : p e with
    | true =>
      simp only [if_true]
      exact ih (sortedKeys_tail h)
    | false =>
      simp only [Bool.false_eq_true, if_false]
      exact h

theorem mem_dropWhile_ge (pre : List Nat) :
    ∀ l : Store, sortedKeys l = true →
      ∀ e ∈ l.dropWhile (fun e => lexLt e.1 pre), lexLt e.1 pre = false := by
  intro l
  induction l with
  | nil => intro _ e h2; simp at h2
  | cons e1 l2 ih =>
    intro h e2 h2
    rw [List.dropWhile_cons] at h2
    cases hp : lexLt e1.1 pre with
    | true =>
      simp only [hp, if_true] at h2
      exact ih (sortedKeys_tail h) e2 h2
    | false =>
      simp only [hp, Bool.false_eq_true, if_false] at h2
      rcases List.mem_cons.mp h2 with rfl | h2
      · exact hp
      · cases h3 : lexLt e2.1 pre with
        | false => rfl
        | true =>
          rw [lexLt_trans (sortedKeys_head_lt h e2 h2) h3] at hp
          simp at hp

theorem takeWhile_eq_filter_of_sorted (pre : List Nat) :
    ∀ l : Store, sortedKeys l = true →
      (∀ e ∈ l, lexLt e.1 pre = false) →
      l.takeWhile (fun e => hasPfx pre e.1)
        = l.filter (fun e => hasPfx pre e.1) := by
  intro l
  induction l with
  | nil => intro _ _; rfl
  | cons e l2 ih =>
    intro hs hge
    rw [List.takeWhile_cons, List.filter_cons]
    cases hp : hasPfx pre e.1 with
    | true =>
      simp only [hp, if_true]
      rw [ih (sortedKeys_tail hs) (fun e2 h2 => hge e2 (List.mem_cons_of_mem e h2))]
    | false =>
      simp only [hp, Bool.false_eq_true, if_false]
      have hnil : l2.filter (fun e => hasPfx pre e.1) = [] := by
        rw [List.filter_eq_nil_iff]
        intro e2 h2 hcon
        have hcontra := hasPfx_of_between (by simpa using hcon)
          (hge e (List.mem_cons_self e l2)) (sortedKeys_head_lt hs e2 h2)
        rw [hp] at hcontra
        exact Bool.false_ne_true hcontra
      rw [hnil]

theorem filter_dropWhile_pfx (pre : List Nat) :
    ∀ l : Store,
      (l.dropWhile (fun e => lexLt e.1 pre)).filter (fun e => hasPfx pre e.1)
        = l.filter (fun e => hasPfx pre e.1) := by
  intro l
  induction l with
  | nil => rfl
  | cons e l2 ih =>
    rw [List.dropWhile_cons]
    cases hq : lexLt e.1 pre with
    | true =>
      simp only [hq, if_true]
      have hnp : hasPfx pre e.1 = false := by
        cases hc : hasPfx pre e.1 with
        | false => rfl
        | true =>
          rw [hasPfx_lexLt_false hc] at hq
          simp at hq
      rw [ih, List.filter_cons]
      simp only [hnp, Bool.false_eq_true, if_false]
    | false =>
      simp only [hq, Bool.false_eq_true, if_false]

theorem iterLoop_adv (n : Nat) (e : List Nat × Val) (l : Store)
    (pre : List Nat) (acc : List Rec) :
    (iterLoop n ⟨e :: l, pre, true, false, none, true⟩ acc).1
      = (iterLoop n ⟨l, pre, false, false, none, true⟩ acc).1 := by
  cases n with
  | zero => rfl
  | succ n =>
    cases l with
    | nil =>
      simp [iterLoop, iterNext, curRest, iterClose]
    | cons e2 l2 =>
      cases hp : hasPfx pre e2.1 with
      | true =>
        cases hd : decodeEntry e2 with
        | ok r => simp [iterLoop, iterNext, curRest, hp, hd]
        | error err2 => simp [iterLoop, iterNext, curRest, hp, hd]
      | false =>
        simp [iterLoop, iterNext, curRest, iterClose, hp]

theorem iterLoop_takeWhile (pre : List Nat) :
    ∀ (l : Store) (acc : List Rec),
      (∀ e ∈ l.takeWhile (fun e => hasPfx pre e.1), entryDec e = true) →
      (iterLoop (l.length + 1) ⟨l, pre, false, false, none, true⟩ acc).1
        = acc.reverse
          ++ (l.takeWhile (fun e => hasPfx pre e.1)).map yieldOf := by
  intro l
  induction l with
  | nil => intro acc _; simp [iterLoop, iterNext, curRest, iterClose]
  | cons e l2 ih =>
    intro acc hwf
    cases hp : hasPfx pre e.1 with
    | true =>
      have he : entryDec e = true := by
        refine hwf e ?_
        rw [List.takeWhile_cons]
        simp only [hp, if_true]
        exact List.mem_cons_self e _
      have hd : decodeEntry e = .ok (yieldOf e) := decodeEntry_of_dec he
      have step :
          (iterLoop ((e :: l2).length + 1)
            ⟨e :: l2, pre, false, false, none, true⟩ acc).1
          = (iterLoop (l2.length + 1)
              ⟨e :: l2, pre, true, false, none, true⟩ (yieldOf e :: acc)).1 := by
        simp only [List.length_cons]
        simp only [iterLoop, iterNext, curRest, Option.isSome_none,
          Bool.false_eq_true, if_false, hp, if_true, hd]
      rw [step, iterLoop_adv,
        ih (yieldOf e :: acc)
          (fun e2 h2 => hwf e2 (by
            rw [List.takeWhile_cons]
            simp only [hp, if_true]
            exact List.mem_cons_of_mem e h2))]
      rw [List.takeWhile_cons]
      simp [hp]
    | false =>
      have step :
          (iterLoop ((e :: l2).length + 1)
            ⟨e :: l2, pre, false, false, none, true⟩ acc).1 = acc.reverse := by
        simp only [List.length_cons]
        simp only [iterLoop, iterNext, curRest, Option.isSome_none,
          Bool.false_eq_true, if_false, hp, iterClose]
      rw [step, List.takeWhile_cons]
      simp [hp]

/-! ## Claim theorems -/

/-- C4: the claim says a version mismatch between the loaded metadata
document and the current format version constant makes `Open` fail. The
source performs no such comparison: opening a store whose persisted document
carries version 2 (the current constant being 1) succeeds, and the stale
version is adopted as the in-memory document. -/
theorem open_ignores_version :
    openDB (storeSet [] metaKey (Val.metaV { version := 2, buckets := [] }))
        false true
      = Except.ok
          { store := storeSet [] metaKey (Val.metaV { version := 2, buckets := [] })
            meta := { version := 2, buckets := [] }
            nextBucketSeq := 0
            readOnly := false }
    ∧ (2 : Nat) ≠ formatVersion := by
  constructor
  · rfl
  · decide

/-- C5: the claim says the key codec's `Marshal` returns exactly the
big-endian fixed-width encoding of a fixed-width integer and that
`Unmarshal` recovers the value. In the source `Marshal` seeds its buffer
with `make([]byte, 8)` — eight zero bytes of initial contents — so the
encoding of `uint16(5)` is 10 bytes, not the 2-byte big-endian form; and
`Unmarshal`, which reads the fixed width from the front, decodes that
encoding to 0, not 5. The spec-modelled encoding round-trips. -/
theorem keyCodec_zero_padding_bug :
    keyMarshalU16 5 = (0 :: 0 :: 0 :: 0 :: 0 :: 0 :: 0 :: 0 :: 0 :: 5 :: [])
    ∧ specKeyMarshalU16 5 = (0 :: 5 :: [])
    ∧ keyMarshalU16 5 ≠ specKeyMarshalU16 5
    ∧ keyUnmarshalU16 (keyMarshalU16 5) 0 = some 0
    ∧ keyUnmarshalU16 (specKeyMarshalU16 5) 0 = some 5 := by
  refine ⟨rfl, rfl, ?_, rfl, rfl⟩
  decide

/-- C6: the claim says an explicitly annotated key field is preferred over a
field typed `Id`. In the source the `break` that should exit the field loop
after an annotated match sits inside a `switch` and only exits the switch,
so the scan continues and a later `Id`-typed field wins: on a struct whose
field 0 is tagged `bow:"key"` and whose field 1 has type `Id`, `keyIndex`
picks field 1, while the spec-modelled discovery picks field 0. Absence of
both kinds of field legally yields no key field. -/
theorem keyIndex_prefers_id_over_tag :
    keyIndexGo (⟨false, some bowKeyTag⟩ :: ⟨true, none⟩ :: []) = some 1
    ∧ keyIndexSpec (⟨false, some bowKeyTag⟩ :: ⟨true, none⟩ :: []) = some 0
    ∧ keyIndexGo (⟨false, none⟩ :: []) = none := by
  refine ⟨?_, ?_, rfl⟩ <;> decide

/-- C10: the claim says the not-found path of `Bucket.Get` leaves the
destination's key field holding the supplied key. The injection does happen
before the engine read, and the payload is untouched, but the field receives
the key codec's decode of the encoded key: for the absent `int64` key 7 the
decode of the zero-padded encoding is 0, not 7. -/
theorem get_notfound_key_injection :
    bGet { store := [], meta := meta0, nextBucketSeq := 0, readOnly := false }
        (Except.ok 2048) (KeyField.ki64 7) { key := .ki64 5, payload := 42 }
      = ({ key := .ki64 0, payload := 42 }, some Err.notFound) := by
  decide

/-- C3 counterexample: the claim says a failed metadata persist leaves the
in-memory metadata map unchanged. On a fresh database, creating a bucket
whose metadata write fails returns the error, yet the in-memory map retains
the new name-to-identifier registration. -/
theorem createBucket_failed_persist_cex :
    (createBucket dbW nameA false).2 = Except.error Err.engineWrite
    ∧ (createBucket dbW nameA false).1.meta.buckets
        = (nameA, ⟨2048⟩) :: []
    ∧ dbW.meta.buckets = [] := by
  refine ⟨rfl, rfl, rfl⟩

/-- C9 counterexample: the claim says `Close` still releases the snapshot
after a decode failure has latched the iterator error. Running `Next` into
an undecodable value latches the error and keeps the resources held; the
subsequent `Next` returns false immediately, and `Close` returns without
releasing anything. -/
theorem iterClose_after_error_cex :
    ((iterNext itC9 dummyRec).1).err = some Err.codecFail
    ∧ ((iterNext itC9 dummyRec).1).resOpen = true
    ∧ (iterNext (iterNext itC9 dummyRec).1 dummyRec).2.1 = false
    ∧ iterClose ((iterNext itC9 dummyRec).1) = (iterNext itC9 dummyRec).1
    ∧ (iterClose ((iterNext itC9 dummyRec).1)).resOpen = true := by
  refine ⟨rfl, rfl, rfl, rfl, rfl⟩

/-- C1: for a record carrying a non-empty explicit key, a successful `Put`
followed by `Get` with that key on the same bucket returns the record
unchanged: the value decodes through the configured value codec, and the key
field of the result is populated (the decoded record carries it). -/
theorem put_get_roundtrip (db : DB) (id : Nat) (r out : Rec)
    (fresh : List Nat) (hro : db.readOnly = false)
    (hk : extractKey r ≠ []) :
    bGet ((bPut db (Except.ok id) r fresh).1) (Except.ok id) r.key out
      = (r, none) := by
  have hke : (keyMarshal r.key).isEmpty = false := by
    cases hc : keyMarshal r.key with
    | nil => exact absurd hc (by simpa [extractKey] using hk)
    | cons a l => rfl
  simp only [bPut, bPutBytes, hro, Bool.false_eq_true, if_false, hke,
    bGet, extractKey]
  rw [storeGet_set_self]

/-- C1 witness: the round trip at a concrete database, bucket and record. -/
theorem put_get_roundtrip_witness :
    bGet ((bPut dbW (Except.ok 2048) recA []).1) (Except.ok 2048) recA.key outW
      = (recA, none) :=
  put_get_roundtrip dbW 2048 recA outW [] rfl (by decide)

theorem internalKey_inj {idA idB : Nat} (k1 k2 : List Nat)
    (hA : idA < 65536) (hB : idB < 65536) (hne : idA ≠ idB) :
    internalKey idA k1 ≠ internalKey idB k2 := by
  intro hcontra
  simp only [internalKey, beBytes, pow_zero, pow_one, Nat.div_one,
    List.cons_append, List.nil_append, List.cons.injEq] at hcontra
  obtain ⟨h1, h2, _⟩ := hcontra
  omega

/-- C2: distinct bucket identifiers are 2-byte fixed-width prefixes, so
internal keys of different buckets never collide; a record put under the
same user key into two different buckets is retrieved independently from
each; and sequential creates of two fresh, distinct names register distinct
identifiers. -/
theorem bucket_isolation :
    (∀ (idA idB : Nat) (k1 k2 : List Nat), idA < 65536 → idB < 65536 →
        idA ≠ idB → internalKey idA k1 ≠ internalKey idB k2)
    ∧ (∀ (db : DB) (idA idB : Nat) (rA rB out : Rec) (fA fB : List Nat),
        db.readOnly = false → idA < 65536 → idB < 65536 → idA ≠ idB →
        rA.key = rB.key → extractKey rA ≠ [] →
        bGet ((bPut ((bPut db (Except.ok idA) rA fA).1) (Except.ok idB) rB fB).1)
            (Except.ok idA) rA.key out = (rA, none)
        ∧ bGet ((bPut ((bPut db (Except.ok idA) rA fA).1) (Except.ok idB) rB fB).1)
            (Except.ok idB) rB.key out = (rB, none))
    ∧ (∀ (db : DB) (nA nB : String),
        lookupName db.meta.buckets nA = none →
        lookupName db.meta.buckets nB = none → nA ≠ nB →
        db.nextBucketSeq + 1 + 8 * 256 ≤ MaxBuckets →
        (createBucket db nA true).2 = Except.ok (db.nextBucketSeq + 8 * 256)
        ∧ (createBucket (createBucket db nA true).1 nB true).2
            = Except.ok (db.nextBucketSeq + 1 + 8 * 256)) := by
  refine ⟨fun idA idB k1 k2 hA hB hne => internalKey_inj k1 k2 hA hB hne,
    ?_, ?_⟩
  · intro db idA idB rA rB out fA fB hro hA hB hne hkey hk
    have hkeA : (keyMarshal rA.key).isEmpty = false := by
      cases hc : keyMarshal rA.key with
      | nil => exact absurd hc (by simpa [extractKey] using hk)
      | cons a l => rfl
    have hkeB : (keyMarshal rB.key).isEmpty = false := by
      rw [← hkey]; exact hkeA
    have hib : internalKey idB (keyMarshal rA.key)
        ≠ internalKey idA (keyMarshal rA.key) :=
      internalKey_inj _ _ hB hA (Ne.symm hne)
    have hib2 : internalKey idA (keyMarshal rA.key)
        ≠ internalKey idB (keyMarshal rA.key) :=
      internalKey_inj _ _ hA hB hne
    constructor
    · simp only [bPut, bPutBytes, extractKey, hro, Bool.false_eq_true,
        if_false, hkeA, hkeB, bGet, ← hkey]
      rw [storeGet_set_ne _ _ _ _ hib2, storeGet_set_self]
    · simp only [bPut, bPutBytes, extractKey, hro, Bool.false_eq_true,
        if_false, hkeA, hkeB, bGet, ← hkey]
      rw [storeGet_set_self]
  · intro db nA nB hmA hmB hneN hcap
    have hcap1 : ¬ MaxBuckets < db.nextBucketSeq + 8 * 256 := by
      unfold MaxBuckets at hcap ⊢
      omega
    have hcap2 : ¬ MaxBuckets < db.nextBucketSeq + 1 + 8 * 256 := by
      unfold MaxBuckets at hcap ⊢
      omega
    have hstep1 : createBucket db nA true
        = (writeMeta { db with
            nextBucketSeq := db.nextBucketSeq + 1
            meta := { db.meta with
              buckets := (nA, ⟨db.nextBucketSeq + 8 * 256⟩) :: db.meta.buckets } },
           Except.ok (db.nextBucketSeq + 8 * 256)) := by
      unfold createBucket
      rw [hmA]
      simp only [hcap1, if_false, if_true]
    refine ⟨by rw [hstep1], ?_⟩
    rw [hstep1]
    unfold createBucket
    have hmB2 : lookupName
        (writeMeta { db with
            nextBucketSeq := db.nextBucketSeq + 1
            meta := { db.meta with
              buckets := (nA, ⟨db.nextBucketSeq + 8 * 256⟩) :: db.meta.buckets } }).meta.buckets
          nB = none := by
      have hneN2 : ¬ (nB = nA) := fun hc => hneN hc.symm
      simp only [writeMeta, lookupName, hneN2, if_false]
      exact hmB
    rw [hmB2]
    simp only [writeMeta, hcap2, if_false, if_true]

/-- C2 witness: the isolation properties at a concrete database, two
buckets, and a shared user key. -/
theorem bucket_isolation_witness :
    internalKey 2048 (49 :: []) ≠ internalKey 2049 (49 :: [])
    ∧ bGet ((bPut ((bPut dbW (Except.ok 2048) recA []).1) (Except.ok 2049) recB []).1)
        (Except.ok 2048) recA.key outW = (recA, none)
    ∧ bGet ((bPut ((bPut dbW (Except.ok 2048) recA []).1) (Except.ok 2049) recB []).1)
        (Except.ok 2049) recB.key outW = (recB, none)
    ∧ (createBucket dbW nameA true).2 = Except.ok 2048
    ∧ (createBucket (createBucket dbW nameA true).1 nameB true).2
        = Except.ok 2049 := by
  have h2 := bucket_isolation.2.1 dbW 2048 2049 recA recB outW [] []
    rfl (by decide) (by decide) (by decide) rfl (by decide)
  have h3 := bucket_isolation.2.2 dbW nameA nameB rfl rfl (by decide) (by decide)
  exact ⟨bucket_isolation.1 2048 2049 (49 :: []) (49 :: [])
      (by decide) (by decide) (by decide),
    h2.1, h2.2, h3.1, h3.2⟩

/-- C3 amended: when persisting the metadata document fails, the create
attempt does return the error and the persisted store is untouched, but the
in-memory metadata map RETAINS the new name-to-identifier registration, and
a subsequent `DB.Bucket` call on the same name sees it as an existing
bucket. -/
theorem createBucket_failed_persist (db : DB) (name : String)
    (hmiss : lookupName db.meta.buckets name = none)
    (hcap : db.nextBucketSeq + 8 * 256 ≤ MaxBuckets) :
    (createBucket db name false).2 = Except.error Err.engineWrite
    ∧ (createBucket db name false).1.store = db.store
    ∧ (createBucket db name false).1.meta.buckets
        = (name, ⟨db.nextBucketSeq + 8 * 256⟩) :: db.meta.buckets
    ∧ (dbBucket (createBucket db name false).1 name true).2
        = Except.ok (db.nextBucketSeq + 8 * 256) := by
  have hcap1 : ¬ MaxBuckets < db.nextBucketSeq + 8 * 256 := by
    unfold MaxBuckets at hcap ⊢
    omega
  have hstep : createBucket db name false
      = ({ db with
            nextBucketSeq := db.nextBucketSeq + 1
            meta := { db.meta with
              buckets := (name, ⟨db.nextBucketSeq + 8 * 256⟩) :: db.meta.buckets } },
         Except.error Err.engineWrite) := by
    unfold createBucket
    rw [hmiss]
    simp only [hcap1, if_false, Bool.false_eq_true]
  rw [hstep]
  refine ⟨rfl, rfl, rfl, ?_⟩
  simp [dbBucket, lookupName]

/-- C3 witness: the amended behaviour at a fresh database. -/
theorem createBucket_failed_persist_witness :
    (createBucket dbW nameA false).2 = Except.error Err.engineWrite
    ∧ (createBucket dbW nameA false).1.store = dbW.store
    ∧ (createBucket dbW nameA false).1.meta.buckets
        = (nameA, ⟨2048⟩) :: dbW.meta.buckets
    ∧ (dbBucket (createBucket dbW nameA false).1 nameA true).2
        = Except.ok 2048 :=
  createBucket_failed_persist dbW nameA rfl (by decide)

/-- C7 counterexample: the claim says the iterator yields exactly the
records that existed under the active prefix at creation. For a bucket
holding one `int64`-keyed record, the single yielded record carries key
field 0 — the key codec's decode of the stripped zero-padded internal key —
not the stored record's key 7, so the yields differ from the records that
existed. -/
theorem iter_snapshot_consistent_cex :
    (iterThenMutate dbInt 2048 [] []).1
      = ({ key := .ki64 0, payload := 1 } : Rec) :: []
    ∧ (prefixEntries dbInt.store (internalKey 2048 [])).map recOfEntry
      = ({ key := .ki64 7, payload := 1 } : Rec) :: []
    ∧ (iterThenMutate dbInt 2048 [] []).1
      ≠ (prefixEntries dbInt.store (internalKey 2048 [])).map recOfEntry := by
  refine ⟨rfl, rfl, ?_⟩
  decide

/-- C7 amended: an iterator yields, in key-byte order, exactly the decoded
form of the entries that existed under the active prefix in the snapshot
taken at its creation — each stored record decoded by the value codec with
the stripped internal key re-injected into its key field (the stored record
itself for string-keyed records; for `int64`-keyed records the re-injected
key is the decode of the zero-padded encoding, e.g. 0) — for every sequence
of `Put`/`Delete` mutations committed to the database after the iterator
was created (the yields do not mention the mutated database at all).
Hypotheses: the engine store is sorted, and no entry under the prefix
latches a decode error. -/
theorem iter_snapshot_reinjected (db : DB) (id : Nat) (sub : List Nat)
    (ops : List Op) (hs : sortedKeys db.store = true)
    (hdec : ∀ e ∈ prefixEntries db.store (internalKey id sub), entryDec e = true) :
    (iterThenMutate db id sub ops).1
      = (prefixEntries db.store (internalKey id sub)).map yieldOf := by
  have hsd : sortedKeys
      (db.store.dropWhile (fun e => lexLt e.1 (internalKey id sub))) = true :=
    sortedKeys_dropWhile _ db.store hs
  have hge := mem_dropWhile_ge (internalKey id sub) db.store hs
  have htf := takeWhile_eq_filter_of_sorted (internalKey id sub) _ hsd hge
  have hfd := filter_dropWhile_pfx (internalKey id sub) db.store
  have hkey : (db.store.dropWhile (fun e => lexLt e.1 (internalKey id sub))).takeWhile
      (fun e => hasPfx (internalKey id sub) e.1)
      = prefixEntries db.store (internalKey id sub) := by
    rw [htf]
    exact hfd
  have hloop := iterLoop_takeWhile (internalKey id sub)
    (db.store.dropWhile (fun e => lexLt e.1 (internalKey id sub))) []
    (by rw [hkey]; exact hdec)
  rw [hkey] at hloop
  show (iterLoop
      ((db.store.dropWhile (fun e => lexLt e.1 (internalKey id sub))).length + 1)
      { rest := db.store.dropWhile (fun e => lexLt e.1 (internalKey id sub))
        pre := internalKey id sub
        advanced := false
        closed := false
        err := none
        resOpen := true } []).1
    = (prefixEntries db.store (internalKey id sub)).map yieldOf
  rw [hloop]
  simp

/-- C7 witness: the snapshot equality at a concrete bucket holding an
`int64`-keyed and a string-keyed record, with a post-creation `Put`
(sorting after the cursor) and `Delete`. -/
theorem iter_snapshot_reinjected_witness :
    (iterThenMutate dbW7 2048 [] opsW).1
      = (prefixEntries dbW7.store (internalKey 2048 [])).map yieldOf :=
  iter_snapshot_reinjected dbW7 2048 [] opsW (by decide) (by decide)

/-- C8: with the database opened read-only, `Put` and `Delete` return the
read-only violation before touching the engine and leave the database
unchanged (for any bucket handle, even a latched one); `Bucket` on an
unregistered name latches `ErrNotFound` instead of creating anything;
`Get` returns previously written data unchanged; and iterator creation
reads only the store, unaffected by the read-only flag. -/
theorem readOnly_semantics (db : DB) (hro : db.readOnly = true) :
    (∀ (b : Except Err Nat) (r : Rec) (fresh : List Nat),
        bPut db b r fresh = (db, some Err.readOnly))
    ∧ (∀ (b : Except Err Nat) (k : KeyField),
        bDelete db b k = (db, some Err.readOnly))
    ∧ (∀ (name : String) (wk : Bool), lookupName db.meta.buckets name = none →
        dbBucket db name wk = (db, Except.error Err.notFound))
    ∧ (∀ (id : Nat) (k : KeyField) (out r : Rec),
        storeGet db.store (internalKey id (keyMarshal k)) = some (Val.recV r) →
        bGet db (Except.ok id) k out = (r, none))
    ∧ (∀ (id : Nat) (sub : List Nat),
        newIterSt db.store id sub
          = newIterSt (DB.mk db.store db.meta db.nextBucketSeq false).store id sub) := by
  refine ⟨?_, ?_, ?_, ?_, ?_⟩
  · intro b r fresh
    simp [bPut, hro]
  · intro b k
    simp [bDelete, hro]
  · intro name wk hmiss
    simp [dbBucket, hmiss, hro]
  · intro id k out r hgot
    simp [bGet, hgot]
  · intro id sub
    rfl

/-- C8 witness: the read-only behaviours at a concrete read-only database
holding one record. -/
theorem readOnly_semantics_witness :
    bPut dbRO (Except.ok 2048) recB [] = (dbRO, some Err.readOnly)
    ∧ bDelete dbRO (Except.ok 2048) recA.key = (dbRO, some Err.readOnly)
    ∧ dbBucket dbRO nameB true = (dbRO, Except.error Err.notFound)
    ∧ bGet dbRO (Except.ok 2048) recA.key outW = (recA, none) := by
  have h := readOnly_semantics dbRO rfl
  exact ⟨h.1 (Except.ok 2048) recB [], h.2.1 (Except.ok 2048) recA.key,
    h.2.2.1 nameB true (by decide), h.2.2.2.1 2048 recA.key outW recA (by decide)⟩

/-- C9 amended: the snapshot is released automatically when an advance finds
the cursor no longer matching the active prefix, and by an explicit `Close`
whenever no iterator error is latched; after an error is latched, `Next`
returns false immediately and `Close` is a no-op that does NOT release the
snapshot. -/
theorem iter_release_semantics :
    (∀ (it : IterSt) (scr : Rec), it.err = none → it.closed = false →
        validB it.pre (curRest it) = false →
        (iterNext it scr).2.1 = false
        ∧ ((iterNext it scr).1).resOpen = false
        ∧ ((iterNext it scr).1).closed = true)
    ∧ (∀ it : IterSt, it.err = none →
        (iterClose it).resOpen = false ∧ (iterClose it).closed = true)
    ∧ (∀ (it : IterSt) (scr : Rec) (e : Err), it.err = some e →
        iterNext it scr = (it, false, scr) ∧ iterClose it = it) := by
  refine ⟨?_, ?_, ?_⟩
  · intro it scr he hc hv
    unfold iterNext
    rw [he, hc]
    simp only [Option.isSome_none, Bool.false_eq_true, if_false]
    cases hrest : curRest it with
    | nil => simp [iterClose, he]
    | cons e2 l2 =>
      have hp : hasPfx it.pre e2.1 = false := by
        simpa [validB, hrest] using hv
      simp [hp, iterClose, he]
  · intro it he
    simp [iterClose, he]
  · intro it scr e he
    exact ⟨by simp [iterNext, he], by simp [iterClose, he]⟩

/-- C9 witness: exhaustion releases at a concrete exhausted cursor; `Close`
releases a concrete error-free iterator; a concrete error-latched iterator
stops `Next` and is untouched by `Close`. -/
theorem iter_release_semantics_witness :
    (iterNext (IterSt.mk [] (8 :: 0 :: []) false false none true) dummyRec).2.1 = false
    ∧ ((iterNext (IterSt.mk [] (8 :: 0 :: []) false false none true) dummyRec).1).resOpen = false
    ∧ (iterClose itC9).resOpen = false
    ∧ iterClose ((iterNext itC9 dummyRec).1) = (iterNext itC9 dummyRec).1 := by
  have h1 := iter_release_semantics.1
    (IterSt.mk [] (8 :: 0 :: []) false false none true) dummyRec rfl rfl rfl
  have h2 := iter_release_semantics.2.1 itC9 rfl
  have h3 := iter_release_semantics.2.2 ((iterNext itC9 dummyRec).1) dummyRec
    Err.codecFail rfl
  exact ⟨h1.1, h1.2.1, h2.1, h3.2⟩

end Bow
